import Mathlib

/-!
Verification of `cloudinit/ssh_util.py` (authorized-keys line parsing, key-set
merge, sshd_config line parsing, and the AuthorizedKeysFile token
substitution).

The Python code is embedded shallowly: Python `str` values become Lean
`String`s (manipulated through their `.data` character lists), Python `None`
for an optional string field becomes `Option.none`, and Python truthiness of
a string field (`if self.options:`) becomes the `truthy` predicate below
(`none` and `some ""` are both falsy).  All definitions are executable and
reduce in the kernel, so concrete runs can be settled with `decide` / `rfl`.
-/

/-- The character class used by Python 2 `str.split(None, ..)` and
`str.strip()`: space, tab, newline, carriage return, vertical tab, form
feed. -/
def isPySpace (c : Char) : Bool :=
  c = ' ' || c = '\t' || c = '\n' || c = '\r' || c = '\x0b' || c = '\x0c'

/-- Drop the longest suffix of `l` whose characters all satisfy `p`
(helper for Python `rstrip`). -/
def dropTrail (p : Char → Bool) (l : List Char) : List Char :=
  (l.reverse.dropWhile p).reverse

/-- Python `line.rstrip("\r\n")`: remove trailing CR and LF characters. -/
def rstripCRLF (s : String) : String :=
  ⟨dropTrail (fun c => c = '\r' || c = '\n') s.data⟩

/-- Python `s.strip()`: remove leading and trailing whitespace. -/
def pyStrip (s : String) : String :=
  ⟨dropTrail isPySpace (s.data.dropWhile isPySpace)⟩

/-- Python `s.startswith("#")` (a single-character needle). -/
def startsHash (s : String) : Bool :=
  match s.data with
  | [] => false
  | c :: _ => c = '#'

/-- Python `s.split(None, maxsplit)` on character lists: skip leading
whitespace; while splits remain, emit the next maximal non-whitespace run;
once `maxsplit` splits have been made, the remainder (after skipping the
whitespace that follows the last emitted token) is returned whole. -/
def splitWsAux : Nat → List Char → List (List Char)
  | maxsplit, s =>
    let s' := s.dropWhile isPySpace
    if s'.isEmpty then []
    else
      match maxsplit with
      | 0 => [s']
      | n + 1 =>
        (s'.takeWhile (fun c => !isPySpace c)) ::
          splitWsAux n (s'.dropWhile (fun c => !isPySpace c))

/-- Python `s.split(None, maxsplit)` returning `String`s. -/
def pySplitWs (maxsplit : Nat) (s : String) : List String :=
  (splitWsAux maxsplit s.data).map (fun l => ⟨l⟩)

/-- Split a character list at every comma.  This models
`csv.reader(StringIO(options), quoting=csv.QUOTE_NONE)` for a single-line
input without CR/LF: with `QUOTE_NONE` the reader does not interpret quote
characters, so the single row it yields is exactly the comma-split of the
string (and an empty input yields no fields that survive the emptiness
filter applied by the caller). -/
def splitComma : List Char → List (List Char)
  | [] => [[]]
  | c :: cs =>
    if c = ',' then [] :: splitComma cs
    else
      match splitComma cs with
      | t :: ts => (c :: t) :: ts
      | [] => [[c]]

/-- Python `sep.join(lst)`. -/
def joinSep (sep : String) : List String → String
  | [] => ""
  | [s] => s
  | s :: rest => s ++ sep ++ joinSep sep rest

/-- One authorized-keys line (`class AuthKeyLine`).  Field order follows the
Python constructor `__init__(self, source, keytype, base64, comment,
options)`; unset (`None`) fields are `none`. -/
structure AuthKeyLine where
  source : String
  keytype : Option String := none
  base64 : Option String := none
  comment : Option String := none
  options : Option String := none
deriving DecidableEq, Repr

/-- Python truthiness of an optional string field: `None` and `""` are
falsy, any other string is truthy. -/
def truthy : Option String → Bool
  | none => false
  | some s => !s.data.isEmpty

/-- `AuthKeyLine.empty`: true when none of `base64`, `comment`, `keytype`,
`options` is truthy. -/
def AuthKeyLine.empty (e : AuthKeyLine) : Bool :=
  !truthy e.base64 && !truthy e.comment && !truthy e.keytype && !truthy e.options

/-- The token contributed to `__str__` by one optional field: the stored
string when truthy, nothing otherwise. -/
def optTok : Option String → List String
  | none => []
  | some s => if s.data.isEmpty then [] else [s]

/-- `AuthKeyLine.__str__`: join the truthy fields, in the order `options`,
`keytype`, `base64`, `comment`, with single spaces; if no field is truthy,
return `source` verbatim. -/
def AuthKeyLine.str (e : AuthKeyLine) : String :=
  let toks := optTok e.options ++ optTok e.keytype ++ optTok e.base64 ++ optTok e.comment
  if toks.isEmpty then e.source else joinSep " " toks

/-- The quote-aware scan of `AuthKeyLineParser._extract_options`.  Walking
the characters with a `quoted` flag: stop at the first space or tab seen
while unquoted; a backslash immediately followed by a double quote is
consumed as a unit without toggling `quoted`; a double quote toggles
`quoted`; the final character of the string is always consumed if the scan
reaches it (the Python loop increments `i` past the last character before
its lookahead).  Returns `(consumed prefix, rest beginning at the stop
position)`. -/
def scanOpts : Bool → List Char → List Char × List Char
  | _, [] => ([], [])
  | quoted, [c] =>
    if !quoted && (c = ' ' || c = '\t') then ([], [c]) else ([c], [])
  | quoted, c :: c2 :: rest =>
    if !quoted && (c = ' ' || c = '\t') then ([], c :: c2 :: rest)
    else if c = '\\' && c2 = '"' then
      let (o, r) := scanOpts quoted rest
      (c :: c2 :: o, r)
    else if c = '"' then
      let (o, r) := scanOpts (!quoted) (c2 :: rest)
      (c :: o, r)
    else
      let (o, r) := scanOpts quoted (c2 :: rest)
      (c :: o, r)

/-- `AuthKeyLineParser._extract_options(ent)`: isolate the raw options field
with the quote-aware scan, split it at commas (`csv.QUOTE_NONE`), strip each
piece and keep the non-empty ones; then split the remainder of the line
(after the stop character) into at most 3 whitespace tokens. -/
def extract_options (ent : String) : List String × List String :=
  let sc := scanOpts false ent.data
  let options_lst :=
    ((splitComma sc.1).map (fun t => (⟨dropTrail isPySpace (t.dropWhile isPySpace)⟩ : String))).filter
      (fun s => !s.data.isEmpty)
  let toks := (splitWsAux 2 (sc.2.drop 1)).map (fun l => (⟨l⟩ : String))
  (options_lst, toks)

/-- `AuthKeyLineParser._form_components(src_line, toks, options)`: interpret
1 token as `base64`, 2 as `base64, comment`, 3 as `keytype, base64,
comment`; `options` is attached in every case (the Python `components` dict
always holds the `options` key, so the bare-`AuthKeyLine` branch is dead). -/
def form_components (src_line : String) (toks : List String)
    (options : Option String) : AuthKeyLine :=
  match toks with
  | [t1] => ⟨src_line, none, some t1, none, options⟩
  | [t1, t2] => ⟨src_line, none, some t1, some t2, options⟩
  | [t1, t2, t3] => ⟨src_line, some t1, some t2, some t3, options⟩
  | _ => ⟨src_line, none, none, none, options⟩

/-- `AuthKeyLineParser.parse(src_line, def_opt)`. -/
def authKeyParse (src_line : String) (def_opt : Option String := none) : AuthKeyLine :=
  let line := rstripCRLF src_line
  if startsHash line || (pyStrip line).data.isEmpty then
    ⟨src_line, none, none, none, none⟩
  else
    let ent := pyStrip line
    let toks := pySplitWs 3 ent
    if toks.length < 4 then form_components src_line toks def_opt
    else
      let ex := extract_options ent
      let options := if !ex.1.isEmpty then some (joinSep "," ex.1) else def_opt
      form_components src_line ex.2 options

/-! ## The merge (`update_authorized_keys`)

The Python function mutates `old_entries` in place and threads the shrinking
`to_add` pool through its two nested loops.  `old_entries` and `keys` hold
separately constructed objects, and `AuthKeyLine` defines no `__eq__`, so
Python's `k in to_add` / `to_add.remove(k)` compare by object identity.
Modelling entries as values, `List.erase` (remove the first value-equal
occurrence) produces the same final pool contents: a removal is attempted
for every inner-loop match, so every occurrence of a matching value is
erased either way, and value-equal elements are interchangeable in all later
uses of the pool. -/

/-- The guard `ent.empty() or not ent.base64` used by both merge loops to
skip entries that do not take part in `base64` matching. -/
def skip_entry (e : AuthKeyLine) : Bool :=
  e.empty || !truthy e.base64

/-- The inner loop of `update_authorized_keys` for one existing entry: fold
over the full `keys` list carrying `(ent, to_add)`; a desired key that is
empty or has a falsy `base64` is skipped; a `base64` match replaces `ent`
by that key and erases it from the pool. -/
def inner_scan (keys : List AuthKeyLine) (st : AuthKeyLine × List AuthKeyLine) :
    AuthKeyLine × List AuthKeyLine :=
  keys.foldl
    (fun st k =>
      if skip_entry k then st
      else if k.base64 == st.1.base64 then (k, st.2.erase k)
      else st)
    st

/-- The outer loop of `update_authorized_keys`: walk the existing entries in
order; an entry that is empty or has a falsy `base64` is kept as is
(`continue`); otherwise it is rewritten to the inner scan's result.  Returns
the rewritten existing entries together with the final `to_add` pool. -/
def update_loop : List AuthKeyLine → List AuthKeyLine → List AuthKeyLine →
    List AuthKeyLine × List AuthKeyLine
  | [], _, to_add => ([], to_add)
  | ent :: rest, keys, to_add =>
    if skip_entry ent then
      (ent :: (update_loop rest keys to_add).1, (update_loop rest keys to_add).2)
    else
      ((inner_scan keys (ent, to_add)).1 ::
          (update_loop rest keys (inner_scan keys (ent, to_add)).2).1,
        (update_loop rest keys (inner_scan keys (ent, to_add)).2).2)

/-- `update_authorized_keys(old_entries, keys)`: run the reconciliation
loops starting from `to_add = list(keys)`, append the unconsumed pool to the
rewritten existing entries (the final contents of the mutated `old_entries`
list), and serialize with `'\n'.join(lines + [''])`.  Returns the final
contents of `old_entries` paired with the returned string. -/
def update_authorized_keys (old_entries keys : List AuthKeyLine) :
    List AuthKeyLine × String :=
  let lp := update_loop old_entries keys keys
  let final := lp.1 ++ lp.2
  (final, joinSep "\n" (final.map AuthKeyLine.str ++ [""]))

/-! ## sshd_config parsing -/

/-- One `sshd_config` line (`class SshdConfigLine`): the (stripped) line
text, the raw key as read (`None` for comment/blank lines) and the value. -/
structure SshdConfigLine where
  line : String
  rawKey : Option String := none
  value : Option String := none
deriving DecidableEq, Repr

/-- The `SshdConfigLine.key` property: the raw key lowercased (keywords are
case-insensitive), or `none` for passthrough lines. -/
def SshdConfigLine.key (l : SshdConfigLine) : Option String :=
  l.rawKey.map (fun k => ⟨k.data.map Char.toLower⟩)

/-- The per-line body of `parse_ssh_config`, mapped over the file's lines
(the file read itself, and the missing-file short-circuit, are external
I/O).  A stripped line that is empty or starts with `#` becomes a
passthrough entry; otherwise `line.split(None, 1)` must yield a key and a
value — a single token makes the tuple unpacking raise `ValueError`, which
propagates (modelled as `Except.error`). -/
def parse_ssh_config_lines : List String → Except String (List SshdConfigLine)
  | [] => .ok []
  | l :: ls =>
    let line := pyStrip l
    if line.data.isEmpty || startsHash line then
      (parse_ssh_config_lines ls).map (fun r => ⟨line, none, none⟩ :: r)
    else
      match pySplitWs 1 line with
      | [key, val] =>
        (parse_ssh_config_lines ls).map (fun r => ⟨line, some key, some val⟩ :: r)
      | _ => .error "ValueError: need more than 1 value to unpack"

/-! ## AuthorizedKeysFile token substitution -/

/-- Is `pat` a (multiset-ordered) prefix of `l`? -/
def listPre : List Char → List Char → Bool
  | [], _ => true
  | _ :: _, [] => false
  | p :: ps, c :: cs => p = c && listPre ps cs

/-- Python `s.replace(old, new)` for a non-empty `old`: scan left to right,
replacing non-overlapping occurrences; replaced text is not rescanned.  The
`Nat` argument is recursion fuel, always instantiated with the length of the
string, which suffices because every step consumes at least one character.
(We never call this with an empty pattern, where Python would behave
differently.) -/
def replace_go (pat rep : List Char) : Nat → List Char → List Char
  | _, [] => []
  | 0, s => s
  | fuel + 1, c :: cs =>
    if !pat.isEmpty && listPre pat (c :: cs) then
      rep ++ replace_go pat rep fuel ((c :: cs).drop pat.length)
    else
      c :: replace_go pat rep fuel cs

/-- Python `s.replace(old, new)` on `String`s (non-empty `old`). -/
def pyReplace (s pat rep : String) : String :=
  ⟨replace_go pat.data rep.data s.data.length s.data⟩

/-- The three `AuthorizedKeysFile` token substitutions performed by
`extract_authorized_keys` (lines 238-240), in source order:
`auth_key_fn.replace("%h", pw_ent.pw_dir).replace("%u",
username).replace("%%", '%')`.  The surrounding config lookup, default and
path join are external I/O handled elsewhere in that function. -/
def auth_key_fn_subst (template home username : String) : String :=
  pyReplace (pyReplace (pyReplace template "%h" home) "%u" username) "%%" "%"

/-! ## Declarative characterization of the merge

`update_loop` threads the pool through the scans of successive existing
entries.  The lemmas below rewrite it into a loop-free form: each existing
entry is replaced independently by the last matching desired entry, and the
pool ends as the desired entries not matched by any processed existing
entry. -/

/-- The desired entries the inner scan accepts as matches for `base64` value
`b`: non-skipped keys whose `base64` equals `b`. -/
def matches_of (keys : List AuthKeyLine) (b : Option String) : List AuthKeyLine :=
  keys.filter (fun k => !skip_entry k && (k.base64 == b))

/-- Loop-free replacement of one existing entry: skipped entries stay; a
non-skipped entry becomes the last matching desired entry, if any. -/
def replace_ent (keys : List AuthKeyLine) (ent : AuthKeyLine) : AuthKeyLine :=
  if skip_entry ent then ent else (matches_of keys ent.base64).getLastD ent

/-- Is desired entry `k` erased from the pending pool by the scan of some
existing entry? -/
def consumed_by (old : List AuthKeyLine) (k : AuthKeyLine) : Bool :=
  !skip_entry k && old.any (fun ent => !skip_entry ent && (k.base64 == ent.base64))

/-- The reconciled collection, stated loop-free: existing entries replaced
in place, followed by the unconsumed desired entries in order. -/
def merge_spec (old keys : List AuthKeyLine) : List AuthKeyLine :=
  old.map (replace_ent keys) ++ keys.filter (fun k => !consumed_by old k)

theorem inner_scan_cons (k : AuthKeyLine) (ks : List AuthKeyLine)
    (st : AuthKeyLine × List AuthKeyLine) :
    inner_scan (k :: ks) st =
      inner_scan ks
        (if skip_entry k then st
         else if k.base64 == st.1.base64 then (k, st.2.erase k) else st) := rfl

theorem inner_scan_fst :
    ∀ (ks : List AuthKeyLine) (e : AuthKeyLine) (ta : List AuthKeyLine),
    (inner_scan ks (e, ta)).1 = (matches_of ks e.base64).getLastD e := by
  simp only [matches_of]
  intro ks
  induction ks with
  | nil => intro e ta; rfl
  | cons k ks ih =>
    intro e ta
    rw [inner_scan_cons, List.filter_cons]
    cases hs : skip_entry k with
    | true => simp [hs, ih]
    | false =>
      cases hb : (k.base64 == e.base64) with
      | true =>
        have hkb : k.base64 = e.base64 := eq_of_beq hb
        simp only [hs, hb, Bool.false_eq_true, if_false, if_true]
        rw [ih, hkb]
        simp only [hs, hb, Bool.not_false, Bool.true_and, if_true]
        rw [List.getLastD_cons]
      | false => simp [hs, hb, ih]

theorem filter_erase_of_neg {α : Type} [DecidableEq α] (q : α → Bool) (k : α)
    (hq : q k = false) : ∀ l : List α, (l.erase k).filter q = l.filter q := by
  intro l
  induction l with
  | nil => rfl
  | cons a t ih =>
    rw [List.erase_cons]
    cases hak : a == k with
    | true =>
      have hak' : a = k := eq_of_beq hak
      subst hak'
      simp [List.filter_cons, hq, hak]
    | false =>
      simp only [hak, Bool.false_eq_true, if_false]
      rw [List.filter_cons, List.filter_cons]
      cases hqa : q a <;> simp [hqa, ih]

theorem inner_scan_pool :
    ∀ (ks : List AuthKeyLine) (e : AuthKeyLine) (ta : List AuthKeyLine),
    (∀ k, (!skip_entry k && (k.base64 == e.base64)) = true →
      List.count k ta ≤ List.count k ks) →
    (inner_scan ks (e, ta)).2 =
      ta.filter (fun k => !(!skip_entry k && (k.base64 == e.base64))) := by
  intro ks
  induction ks with
  | nil =>
    intro e ta h
    refine (List.filter_eq_self.mpr ?_).symm
    intro a ha
    cases hp : (!skip_entry a && (a.base64 == e.base64)) with
    | false => rfl
    | true =>
      exfalso
      have h0 := h a hp
      rw [List.count_nil] at h0
      have h1 : 0 < List.count a ta := List.count_pos_iff.mpr ha
      omega
  | cons k ks ih =>
    intro e ta h
    rw [inner_scan_cons]
    cases hs : skip_entry k with
    | true =>
      simp only [hs, if_true]
      apply ih
      intro j hj
      have hjk : j ≠ k := by
        intro he; rw [he] at hj; simp [hs] at hj
      have h1 := h j hj
      rwa [List.count_cons_of_ne hjk] at h1
    | false =>
      cases hb : (k.base64 == e.base64) with
      | false =>
        simp only [hs, hb, Bool.false_eq_true, if_false]
        apply ih
        intro j hj
        have hjk : j ≠ k := by
          intro he; rw [he] at hj; simp [hs, hb] at hj
        have h1 := h j hj
        rwa [List.count_cons_of_ne hjk] at h1
      | true =>
        have hkb : k.base64 = e.base64 := eq_of_beq hb
        simp only [hs, hb, Bool.false_eq_true, if_false, if_true]
        have hpre : ∀ j, (!skip_entry j && (j.base64 == k.base64)) = true →
            List.count j (ta.erase k) ≤ List.count j ks := by
          intro j hj
          rw [hkb] at hj
          by_cases hjk : j = k
          · subst hjk
            have h1 := h j hj
            rw [List.count_cons_self] at h1
            rw [List.count_erase_self]
            omega
          · rw [List.count_erase_of_ne hjk]
            have h1 := h j hj
            rwa [List.count_cons_of_ne hjk] at h1
        have hrw := ih k (ta.erase k) hpre
        rw [hrw, hkb]
        apply filter_erase_of_neg
        simp [hs, hb]

theorem update_loop_spec :
    ∀ (old keys ta : List AuthKeyLine),
    (∀ k, List.count k ta ≤ List.count k keys) →
    (update_loop old keys ta).1 = old.map (replace_ent keys) ∧
    (update_loop old keys ta).2 = ta.filter (fun k => !consumed_by old k) := by
  intro old
  induction old with
  | nil =>
    intro keys ta h
    refine ⟨rfl, ?_⟩
    refine (List.filter_eq_self.mpr ?_).symm
    intro a _
    simp [consumed_by]
  | cons ent rest ih =>
    intro keys ta h
    cases hg : skip_entry ent with
    | true =>
      obtain ⟨ih1, ih2⟩ := ih keys ta h
      constructor
      · simp only [update_loop, hg, if_true, List.map_cons]
        rw [ih1, replace_ent, hg]
        simp
      · simp only [update_loop, hg, if_true]
        rw [ih2]
        refine List.filter_congr ?_
        intro a _
        simp [consumed_by, List.any_cons, hg]
    | false =>
      have hpool := inner_scan_pool keys ent ta (fun k _ => h k)
      have hta' : ∀ k,
          List.count k (inner_scan keys (ent, ta)).2 ≤ List.count k keys := by
        intro k
        rw [hpool]
        exact le_trans ((List.filter_sublist ta).count_le k) (h k)
      obtain ⟨ih1, ih2⟩ := ih keys (inner_scan keys (ent, ta)).2 hta'
      constructor
      · simp only [update_loop, hg, Bool.false_eq_true, if_false, List.map_cons]
        rw [ih1, inner_scan_fst, replace_ent, hg]
        simp
      · simp only [update_loop, hg, Bool.false_eq_true, if_false]
        rw [ih2, hpool, List.filter_filter]
        refine List.filter_congr ?_
        intro a _
        cases hsa : skip_entry a <;> cases hE : (a.base64 == ent.base64) <;>
          cases hA : rest.any (fun e2 => !skip_entry e2 && (a.base64 == e2.base64)) <;>
            simp [consumed_by, List.any_cons, hg, hsa, hE, hA]

/-- The mutated `old_entries` list returned by `update_authorized_keys` is
exactly the loop-free reconciliation `merge_spec`. -/
theorem update_authorized_keys_fst (old keys : List AuthKeyLine) :
    (update_authorized_keys old keys).1 = merge_spec old keys := by
  obtain ⟨h1, h2⟩ := update_loop_spec old keys keys (fun k => le_refl _)
  simp only [update_authorized_keys, merge_spec]
  rw [h1, h2]

/-! ## Serialization lemmas -/

theorem joinSep_cons_cons (sep a b : String) (l : List String) :
    joinSep sep (a :: b :: l) = a ++ sep ++ joinSep sep (b :: l) := rfl

theorem joinSep_append_single (sep s : String) :
    ∀ (l : List String), l ≠ [] →
    joinSep sep (l ++ [s]) = joinSep sep l ++ sep ++ s := by
  intro l
  induction l with
  | nil => intro h; exact absurd rfl h
  | cons a t ih =>
    intro _
    cases t with
    | nil => rfl
    | cons b t' =>
      simp only [List.cons_append] at ih ⊢
      rw [joinSep_cons_cons, ih (by simp), joinSep_cons_cons]
      simp [String.append_assoc]

theorem joinSep_data_getLast (sep : String) :
    ∀ (l : List String) (t : String), l.getLast? = some t → t.data ≠ [] →
    (joinSep sep l).data.getLast? = t.data.getLast? := by
  intro l
  induction l with
  | nil => intro t h hne; simp at h
  | cons a l' ih =>
    intro t hlast hne
    cases l' with
    | nil =>
      have ht : t = a := by
        have : some a = some t := by simpa using hlast
        exact (Option.some.injEq _ _ ▸ this).symm
      subst ht
      rfl
    | cons b l'' =>
      have hlast' : (b :: l'').getLast? = some t := by
        rwa [List.getLast?_cons_cons] at hlast
      rw [joinSep_cons_cons, String.data_append, List.getLast?_append,
        ih t hlast' hne]
      rw [List.getLast?_eq_getLast t.data hne]
      rfl

/-! ## Small helper lemmas -/

theorem skip_entry_eq_false {e : AuthKeyLine} (h : truthy e.base64 = true) :
    skip_entry e = false := by
  simp [skip_entry, AuthKeyLine.empty, h]

theorem optTok_eq_nil {o : Option String} (h : truthy o = false) : optTok o = [] := by
  cases o with
  | none => rfl
  | some s =>
    simp only [truthy, Bool.not_eq_false'] at h
    simp [optTok, h]

theorem matches_of_eq_filter (keys : List AuthKeyLine) (b : Option String)
    (hb : truthy b = true) :
    matches_of keys b = keys.filter (fun k => k.base64 == b) := by
  unfold matches_of
  refine List.filter_congr ?_
  intro k _
  cases he : (k.base64 == b) with
  | false => simp [he]
  | true =>
    have hk : k.base64 = b := eq_of_beq he
    have htk : truthy k.base64 = true := by rw [hk]; exact hb
    simp [he, skip_entry_eq_false htk]

theorem getLastD_eq_getLast {α : Type} (l : List α) (d : α) (h : l ≠ []) :
    l.getLastD d = l.getLast h := by
  rw [List.getLastD_eq_getLast?, List.getLast?_eq_getLast l h]
  rfl

/-! ## Claims about the merge -/

/-- C1 (counterexample): with existing `[A(base64=X)]` and desired
`[C(base64=X), D(base64=X)]`, the merged entry list is `[D]`, not the
`[D, C]` the claim predicts — the non-winning match `C` is also removed from
the pending pool and never appended. -/
theorem C1_cex :
    (update_authorized_keys [⟨"A", none, some "X", none, none⟩]
        [⟨"C", none, some "X", none, none⟩,
         ⟨"D", none, some "X", some "d", none⟩]).1 ≠
      [⟨"D", none, some "X", some "d", none⟩, ⟨"C", none, some "X", none, none⟩] ∧
    (update_authorized_keys [⟨"A", none, some "X", none, none⟩]
        [⟨"C", none, some "X", none, none⟩,
         ⟨"D", none, some "X", some "d", none⟩]).1 =
      [⟨"D", none, some "X", some "d", none⟩] := by decide

/-- C1 (amended): when an existing entry's `base64` matches one or more
desired entries, every matching desired-entry instance is removed from the
pool of entries still pending append — not just the winning last match —
so matched-but-not-winning desired entries are not appended: with
existing `[a(X)]` and desired `[c(X), d(X)]`, the result is `[d]`. -/
theorem C1_all_matches_consumed (a c d : AuthKeyLine)
    (ha : truthy a.base64 = true)
    (hc : c.base64 = a.base64) (hd : d.base64 = a.base64) :
    (update_authorized_keys [a] [c, d]).1 = [d] := by
  have hct : truthy c.base64 = true := by rw [hc]; exact ha
  have hdt : truthy d.base64 = true := by rw [hd]; exact ha
  have hsa : skip_entry a = false := skip_entry_eq_false ha
  have hsc : skip_entry c = false := skip_entry_eq_false hct
  have hsd : skip_entry d = false := skip_entry_eq_false hdt
  have hmc : (c.base64 == a.base64) = true := beq_iff_eq.mpr hc
  have hmd : (d.base64 == a.base64) = true := beq_iff_eq.mpr hd
  rw [update_authorized_keys_fst]
  simp [merge_spec, replace_ent, matches_of, consumed_by, hsa, hsc, hsd,
    hmc, hmd, List.filter_cons, List.getLastD_cons]

theorem C1_witness :
    (update_authorized_keys [⟨"a2", none, some "Y", none, none⟩]
        [⟨"c2", none, some "Y", none, none⟩,
         ⟨"d2", none, some "Y", none, some "o"⟩]).1 =
      [⟨"d2", none, some "Y", none, some "o"⟩] :=
  C1_all_matches_consumed _ _ _ (by decide) (by decide) (by decide)

/-- C2 (confirmed): an existing entry with truthy `base64` that has at least
one `base64`-equal match in the desired list is replaced, in place, by the
last matching desired entry of the scan; an existing entry with no truthy
`base64` passes through unchanged, in place. -/
theorem C2_last_match_wins (old keys : List AuthKeyLine) (i : Nat)
    (h : i < old.length) :
    (truthy (old[i]).base64 = false →
      ((update_authorized_keys old keys).1)[i]? = some old[i]) ∧
    (truthy (old[i]).base64 = true →
      ∀ hm : keys.filter (fun k => k.base64 == (old[i]).base64) ≠ [],
      ((update_authorized_keys old keys).1)[i]? =
        some ((keys.filter (fun k => k.base64 == (old[i]).base64)).getLast hm)) := by
  have hmain : ((update_authorized_keys old keys).1)[i]? =
      some (replace_ent keys old[i]) := by
    rw [update_authorized_keys_fst, merge_spec]
    rw [List.getElem?_append_left (by simpa using h), List.getElem?_map,
      List.getElem?_eq_getElem h]
    rfl
  constructor
  · intro hf
    rw [hmain, replace_ent]
    have hsk : skip_entry old[i] = true := by simp [skip_entry, hf]
    rw [hsk]
    simp
  · intro ht hm
    rw [hmain, replace_ent, skip_entry_eq_false ht]
    simp only [Bool.false_eq_true, if_false]
    rw [matches_of_eq_filter keys _ ht, getLastD_eq_getLast _ _ hm]

theorem C2_witness :
    ((update_authorized_keys
        [⟨"A", none, some "X1", none, none⟩, ⟨"# comment", none, none, none, none⟩]
        [⟨"C", some "ssh-rsa", some "X1", none, none⟩]).1)[0]? =
      some ⟨"C", some "ssh-rsa", some "X1", none, none⟩ ∧
    ((update_authorized_keys
        [⟨"A", none, some "X1", none, none⟩, ⟨"# comment", none, none, none, none⟩]
        [⟨"C", some "ssh-rsa", some "X1", none, none⟩]).1)[1]? =
      some ⟨"# comment", none, none, none, none⟩ := by
  constructor
  · have h := (C2_last_match_wins
      [⟨"A", none, some "X1", none, none⟩, ⟨"# comment", none, none, none, none⟩]
      [⟨"C", some "ssh-rsa", some "X1", none, none⟩] 0 (by decide)).2
      (by decide) (by decide)
    exact h.trans (by decide)
  · exact (C2_last_match_wins
      [⟨"A", none, some "X1", none, none⟩, ⟨"# comment", none, none, none, none⟩]
      [⟨"C", some "ssh-rsa", some "X1", none, none⟩] 1 (by decide)).1 (by decide)

/-- C7 (counterexample): the merge mutates its `existing` input list —
starting from an empty existing list, after the call the list holds the
appended desired entry, so the inputs are not left unchanged. -/
theorem C7_cex :
    (update_authorized_keys [] [⟨"K", none, some "X", none, none⟩]).1 =
      [⟨"K", none, some "X", none, none⟩] ∧
    (update_authorized_keys [] [⟨"K", none, some "X", none, none⟩]).1 ≠
      ([] : List AuthKeyLine) := by decide

/-- C7 (amended): the merge returns a freshly built serialized string, but
it mutates the existing list in place: after the call, `old_entries` holds
exactly the reconciled ordered collection (each existing entry replaced per
the matching rule, followed by the unconsumed desired entries in order) —
`merge_spec`. -/
theorem C7_mutates_existing_into_merge (old keys : List AuthKeyLine) :
    (update_authorized_keys old keys).1 = merge_spec old keys :=
  update_authorized_keys_fst old keys

/-- C8 (counterexample): with both input lists empty the serialized result
is the empty string — it does not end with a trailing newline. -/
theorem C8_cex :
    (update_authorized_keys [] []).2 = "" ∧
    ((update_authorized_keys [] []).2).data.getLast? ≠ some '\n' := by decide

/-- C8 (amended): whenever the reconciled entry list is non-empty and the
last entry's serialization is a non-empty string not ending in a newline,
the output is the `\n`-join of the serialized entries followed by exactly
one trailing newline; when both inputs are empty the output is the empty
string instead. -/
theorem C8_trailing_newline (old keys : List AuthKeyLine) (t : String)
    (hlast : (((update_authorized_keys old keys).1).map AuthKeyLine.str).getLast? =
      some t)
    (hne : t.data ≠ []) (hnl : t.data.getLast? ≠ some '\n') :
    (update_authorized_keys old keys).2 =
      joinSep "\n" (((update_authorized_keys old keys).1).map AuthKeyLine.str) ++
        "\n" ∧
    ((update_authorized_keys old keys).2).data.getLast? = some '\n' ∧
    (joinSep "\n"
        (((update_authorized_keys old keys).1).map AuthKeyLine.str)).data.getLast? ≠
      some '\n' := by
  have hlist : ((update_authorized_keys old keys).1).map AuthKeyLine.str ≠ [] := by
    intro h0
    rw [h0] at hlast
    simp at hlast
  have h1 : (update_authorized_keys old keys).2 =
      joinSep "\n" (((update_authorized_keys old keys).1).map AuthKeyLine.str) ++
        "\n" := by
    have h2 : (update_authorized_keys old keys).2 =
        joinSep "\n"
          (((update_authorized_keys old keys).1).map AuthKeyLine.str ++ [""]) := rfl
    rw [h2, joinSep_append_single _ _ _ hlist, String.append_empty]
  refine ⟨h1, ?_, ?_⟩
  · rw [h1, String.data_append]
    have hd : ("\n" : String).data = ['\n'] := rfl
    rw [hd, List.getLast?_append]
    rfl
  · rw [joinSep_data_getLast "\n" _ t hlast hne]
    exact hnl

theorem C8_witness :
    (update_authorized_keys [⟨"l", none, some "B", none, none⟩] []).2 = "B\n" := by
  have h := (C8_trailing_newline [⟨"l", none, some "B", none, none⟩] [] "B"
    (by decide) (by decide) (by decide)).1
  rw [h]
  decide

/-! ## Claims about parsing and serialization of single lines -/

/-- C3 (counterexample): parsing `options="a, b" ssh-rsa AAAA c` yields the
options string `options="a,b"` — the comma inside the quotes did split the
field (csv `QUOTE_NONE`), and the space inside the quoted segment was lost
when the pieces were trimmed and re-joined, so quoted content does not
survive intact. -/
theorem C3_cex :
    authKeyParse "options=\"a, b\" ssh-rsa AAAA c" none =
      ⟨"options=\"a, b\" ssh-rsa AAAA c", some "ssh-rsa", some "AAAA", some "c",
        some "options=\"a,b\""⟩ ∧
    (some "options=\"a,b\"" : Option String) ≠ some "options=\"a, b\"" := by decide

/-- C3 (amended): the isolated options field is split at every comma —
quotes are not interpreted during the comma split — then each piece is
trimmed, empty pieces are dropped, and the survivors are re-joined with
commas.  For the claim's example line the re-join reproduces the quoted
field, so `options="a,b" ssh-rsa AAAA comment` still parses to exactly the
claimed four components. -/
theorem C3_quoted_options_example :
    authKeyParse "options=\"a,b\" ssh-rsa AAAA comment" none =
      ⟨"options=\"a,b\" ssh-rsa AAAA comment", some "ssh-rsa", some "AAAA",
        some "comment", some "options=\"a,b\""⟩ := by decide

/-- C4 (counterexample): an entry with no `base64` but a truthy `comment`
serializes to the comment, not to its stored source text. -/
theorem C4_cex :
    AuthKeyLine.str ⟨"original source", none, none, some "just-a-comment", none⟩ =
      "just-a-comment" ∧
    AuthKeyLine.str ⟨"original source", none, none, some "just-a-comment", none⟩ ≠
      "original source" ∧
    truthy (⟨"original source", none, none, some "just-a-comment", none⟩ :
      AuthKeyLine).base64 = false := by decide

/-- C4 (amended): serialization emits the stored source text verbatim
exactly for entries in which all four of `options`, `keytype`, `base64`,
`comment` are unset or empty (`AuthKeyLine.empty`); an entry lacking
`base64` but carrying another truthy field is rendered from its set fields
instead. -/
theorem C4_empty_is_passthrough (e : AuthKeyLine) (h : e.empty = true) :
    e.str = e.source := by
  simp only [AuthKeyLine.empty, Bool.and_eq_true, Bool.not_eq_true'] at h
  obtain ⟨⟨⟨hb, hc⟩, hk⟩, ho⟩ := h
  rw [AuthKeyLine.str]
  rw [optTok_eq_nil hb, optTok_eq_nil hc, optTok_eq_nil hk, optTok_eq_nil ho]
  rfl

theorem C4_witness :
    AuthKeyLine.str ⟨"# raw line", none, none, none, none⟩ = "# raw line" :=
  C4_empty_is_passthrough ⟨"# raw line", none, none, none, none⟩ (by decide)

/-- C5 (counterexample): the raw line `" #x"` has `#` as its first
non-whitespace character, yet parse does not return the empty passthrough
entry — it returns an entry with `base64 = "#x"`, because the code checks
`startswith("#")` before any left-trimming. -/
theorem C5_cex :
    authKeyParse " #x" none = ⟨" #x", none, some "#x", none, none⟩ ∧
    authKeyParse " #x" none ≠ ⟨" #x", none, none, none, none⟩ := by decide

/-- C5 (amended): for every raw line which, after stripping trailing CR/LF,
is empty when trimmed or has `#` as its very first character (leading
whitespace before the `#` defeats the check), parse returns an empty
AuthKeyLine whose source is the raw line, and never an error. -/
theorem C5_passthrough (src : String) (d : Option String)
    (h : startsHash (rstripCRLF src) = true ∨ (pyStrip (rstripCRLF src)).data = []) :
    authKeyParse src d = ⟨src, none, none, none, none⟩ := by
  have hcond :
      (startsHash (rstripCRLF src) || (pyStrip (rstripCRLF src)).data.isEmpty) =
        true := by
    cases h with
    | inl h1 => simp [h1]
    | inr h2 => simp [h2]
  rw [authKeyParse]
  simp only [hcond, if_true]

theorem C5_witness :
    authKeyParse "# hello" none = ⟨"# hello", none, none, none, none⟩ ∧
    authKeyParse "  \r\n" none = ⟨"  \r\n", none, none, none, none⟩ :=
  ⟨C5_passthrough "# hello" none (Or.inl (by decide)),
   C5_passthrough "  \r\n" none (Or.inr (by decide))⟩

/-- C6 (counterexample): the three substitutions applied to `"%%h/%u"` with
home `/h` and user `u` produce `"%/h/u"`, not the `"%h/u"` the claim
states — `%h` does occur inside `%%h`, so the first replacement already
fires. -/
theorem C6_cex :
    auth_key_fn_subst "%%h/%u" "/h" "u" ≠ "%h/u" ∧
    auth_key_fn_subst "%%h/%u" "/h" "u" = "%/h/u" := by decide

/-- C6 (amended): the key-file locator applies exactly the three literal
substring substitutions in the fixed order `%h`, then `%u`, then `%%`;
applied to the template `"%%h/%u"` with home `/h` and user `u` the result is
`"%/h/u"` (the `%h` inside `%%h` is replaced in the first step).  Reordering
the substitutions changes the output: running `%%` first yields `"/h/u"`. -/
theorem C6_substitution_order :
    auth_key_fn_subst "%%h/%u" "/h" "u" = "%/h/u" ∧
    pyReplace (pyReplace (pyReplace "%%h/%u" "%%" "%") "%h" "/h") "%u" "u" =
      "/h/u" := by decide

/-! ## Claims about sshd_config parsing and the options-only parse path -/

theorem takeWhile_not_ws :
    ∀ (l : List Char), (∀ c ∈ l, isPySpace c = false) →
    l.takeWhile (fun c => !isPySpace c) = l ∧
      l.dropWhile (fun c => !isPySpace c) = [] := by
  intro l
  induction l with
  | nil => intro _; simp
  | cons c cs ih =>
    intro h
    have hc := h c (List.mem_cons_self _ _)
    obtain ⟨ih1, ih2⟩ := ih (fun x hx => h x (List.mem_cons_of_mem _ hx))
    rw [List.takeWhile_cons, List.dropWhile_cons]
    simp [hc, ih1, ih2]

/-- `s.split(None, 1)` on a non-empty string containing no whitespace is the
single-element list `[s]`. -/
theorem pySplitWs_single (s : String) (hne : s.data ≠ [])
    (hws : ∀ c ∈ s.data, isPySpace c = false) : pySplitWs 1 s = [s] := by
  obtain ⟨h1, h2⟩ := takeWhile_not_ws s.data hws
  have hdrop : s.data.dropWhile isPySpace = s.data := by
    cases hd : s.data with
    | nil => rfl
    | cons c cs =>
      have hc : isPySpace c = false :=
        hws c (by rw [hd]; exact List.mem_cons_self c cs)
      rw [List.dropWhile_cons]
      simp [hc]
  rw [pySplitWs]
  conv_lhs => rw [splitWsAux]
  simp only [hdrop, h1, h2]
  rw [List.isEmpty_eq_false.mpr hne]
  simp only [Bool.false_eq_true, if_false]
  rw [splitWsAux]
  simp

/-- C9 (confirmed): over the per-line body of `parse_ssh_config`, a file
whose lines are all blank or `#`-comments parses to passthrough entries with
no key, while a file containing any non-comment, non-blank line with no
whitespace fails with the propagated unpacking error. -/
theorem C9_no_value_is_error (ls : List String) :
    ((∀ l ∈ ls, (pyStrip l).data = [] ∨ startsHash (pyStrip l) = true) →
      parse_ssh_config_lines ls =
        .ok (ls.map (fun l => ⟨pyStrip l, none, none⟩))) ∧
    ((∃ l, l ∈ ls ∧ (pyStrip l).data ≠ [] ∧ startsHash (pyStrip l) = false ∧
        ∀ c ∈ (pyStrip l).data, isPySpace c = false) →
      parse_ssh_config_lines ls =
        .error "ValueError: need more than 1 value to unpack") := by
  induction ls with
  | nil =>
    constructor
    · intro _; rfl
    · rintro ⟨l, hl, _⟩
      exact absurd hl (List.not_mem_nil l)
  | cons a ls ih =>
    constructor
    · intro h
      have ha := h a (List.mem_cons_self _ _)
      have hrest := ih.1 (fun l hl => h l (List.mem_cons_of_mem _ hl))
      have hcond : ((pyStrip a).data.isEmpty || startsHash (pyStrip a)) = true := by
        cases ha with
        | inl h1 => simp [h1]
        | inr h2 => simp [h2]
      simp only [parse_ssh_config_lines, hcond, if_true, hrest, List.map_cons]
      rfl
    · rintro ⟨l, hl, hbad⟩
      rcases List.mem_cons.mp hl with heq | hmem
      · subst heq
        obtain ⟨hne, hsh, hws⟩ := hbad
        have h1 : (pyStrip l).data.isEmpty = false := by simp [hne]
        have hcond : ((pyStrip l).data.isEmpty || startsHash (pyStrip l)) = false := by
          simp [h1, hsh]
        simp only [parse_ssh_config_lines, hcond, Bool.false_eq_true, if_false]
        rw [pySplitWs_single (pyStrip l) hne hws]
      · have hrest := ih.2 ⟨l, hmem, hbad⟩
        cases hcond : ((pyStrip a).data.isEmpty || startsHash (pyStrip a)) with
        | true =>
          simp only [parse_ssh_config_lines, hcond, if_true, hrest]
          rfl
        | false =>
          simp only [parse_ssh_config_lines, hcond, Bool.false_eq_true, if_false]
          cases hsp : pySplitWs 1 (pyStrip a) with
          | nil => rfl
          | cons k rest =>
            cases rest with
            | nil => rfl
            | cons v rest2 =>
              cases rest2 with
              | nil =>
                simp only [hrest]
                rfl
              | cons x xs => rfl

theorem C9_witness :
    parse_ssh_config_lines ["# note", "   "] =
      .ok [⟨"# note", none, none⟩, ⟨"", none, none⟩] ∧
    parse_ssh_config_lines ["Protocol 2", "UsePAM"] =
      .error "ValueError: need more than 1 value to unpack" := by
  constructor
  · exact (C9_no_value_is_error ["# note", "   "]).1 (by decide)
  · exact (C9_no_value_is_error ["Protocol 2", "UsePAM"]).2
      ⟨"UsePAM", by decide⟩

/-- C10 (counterexample): the raw line `",\x0b,\x0b,\x0b,"` splits into 4
whitespace-separated tokens (`\x0b` is Python split whitespace but not one
of the scan's stop characters) and the quote-aware scan consumes the whole
string, yet parse returns an entry whose `options` field is unset — every
comma-piece of the options field strips to empty, so the canonical options
list is empty and the absent default is used. -/
theorem C10_cex :
    4 ≤ (pySplitWs 3 (pyStrip (rstripCRLF ",\x0b,\x0b,\x0b,"))).length ∧
    (scanOpts false (pyStrip (rstripCRLF ",\x0b,\x0b,\x0b,")).data).2 = [] ∧
    authKeyParse ",\x0b,\x0b,\x0b," none =
      ⟨",\x0b,\x0b,\x0b,", none, none, none, none⟩ := by decide

/-- C10 (amended): for every raw line that reaches the tokenization path
(not a blank/`#` passthrough), splits into at least 4 whitespace tokens,
whose quote-aware scan consumes the entire string, and whose options field
keeps at least one non-empty comma-token, parse returns an entry whose
`options` is set to the comma-join of those tokens while `keytype`,
`base64` and `comment` are all unset — a non-empty entry with no `base64`
is reachable through the public parse interface. -/
theorem C10_options_only_entry (src : String) (d : Option String)
    (hpass : (startsHash (rstripCRLF src) ||
      (pyStrip (rstripCRLF src)).data.isEmpty) = false)
    (htoks : 4 ≤ (pySplitWs 3 (pyStrip (rstripCRLF src))).length)
    (hconsume : (scanOpts false (pyStrip (rstripCRLF src)).data).2 = [])
    (hopts : (extract_options (pyStrip (rstripCRLF src))).1 ≠ []) :
    authKeyParse src d =
      ⟨src, none, none, none,
        some (joinSep "," (extract_options (pyStrip (rstripCRLF src))).1)⟩ := by
  have hex2 : (extract_options (pyStrip (rstripCRLF src))).2 = [] := by
    simp only [extract_options, hconsume]
    rfl
  have h1 : (extract_options (pyStrip (rstripCRLF src))).1.isEmpty = false :=
    List.isEmpty_eq_false.mpr hopts
  rw [authKeyParse]
  simp only [hpass, Bool.false_eq_true, if_false]
  rw [if_neg (Nat.not_lt.mpr htoks)]
  rw [hex2, h1]
  rfl

theorem C10_witness :
    authKeyParse "x\"a b c d" none =
      ⟨"x\"a b c d", none, none, none, some "x\"a b c d"⟩ :=
  (C10_options_only_entry "x\"a b c d" none (by decide) (by decide) (by decide)
    (by decide)).trans (by decide)
